import Mathlib

/-!
# Music player: playback and playlist state machine

A shallow embedding of the renderer-side state of `src/Renderer.js`
(module-level variables `currentPlaylist`, `currentIndex`, `isPlaying`,
`audio`, `shuffleMode`, `repeatMode`, `favorites` and the `recentlyPlayed`
entry of `localStorage`) and of the functions that mutate it.

Modelling conventions.

* The module-level variables become the fields of `State`; every function
  takes the state and returns the new one.
* JavaScript numbers that hold indices are `Int`; `%` is the truncating
  remainder `Int.tmod`.
* `Math.random()` is a double of `[0, 1)`, written `mant / 2 ^ exp` with a
  significand below `2 ^ 53`; `Math.random() * n` is the product rounded to
  the nearest double, ties to even, and `Math.floor` its integer part. The
  functions that draw random numbers take the list of values the generator
  will hand out and return what is left of it; they return `none` when the
  list runs out before the resampling loop stops.
* The `audio` element is a record of the source it was given, its playback
  position and the number of `play()` / `pause()` requests it received.
  Assigning `audio.currentTime` on an element whose duration is known seeks,
  and seeking moves the requested position into `[0, duration]` (the seek
  algorithm of the HTML standard); assigning a value that is not finite
  throws. Writes to the DOM other than `document.title` are not modelled.
* Pixel coordinates and times in seconds are doubles, embedded in the
  rationals; each arithmetic operation on them rounds its exact result with
  an operator `fl` of which only monotonicity and `fl 0 = 0` are used, and
  results are taken to stay in the finite range. A number that is not finite
  (`NaN`, an infinity) is `none`.
-/

namespace MusicPlayer

/-- A playlist entry (the object literals built in `processUrl`,
`addLocalFile` and the drop handler). -/
structure Song where
  id : String
  title : String
  artist : String
  url : String
  thumbnail : Option String
deriving DecidableEq, Repr

/-- The observable part of the `Audio` element. -/
structure Audio where
  src : String
  currentTime : ℚ
  playCalls : Nat
  pauseCalls : Nat
deriving DecidableEq

/-- One value returned by `Math.random()`: the double `mant / 2 ^ exp` of
`[0, 1)`. Every double of that interval has this form: a significand of at most
53 bits and an exponent no smaller than that of the least subnormal. -/
structure Rand where
  mant : Nat
  exp : Nat
  mant_lt : mant < 2 ^ 53
  exp_le : exp ≤ 1074
  lt_one : mant < 2 ^ exp
deriving DecidableEq

/-- The renderer state. -/
structure State where
  currentPlaylist : List Song
  currentIndex : Int
  isPlaying : Bool
  audio : Audio
  shuffleMode : Bool
  repeatMode : Bool
  favorites : List String
  recentlyPlayed : List Song
  documentTitle : String
deriving DecidableEq

/-- `new Audio()`. -/
def Audio.fresh : Audio :=
  { src := "", currentTime := 0, playCalls := 0, pauseCalls := 0 }

/-- `audio.play()`. -/
def Audio.play (a : Audio) : Audio :=
  { a with playCalls := a.playCalls + 1 }

/-- `audio.pause()`. -/
def Audio.pause (a : Audio) : Audio :=
  { a with pauseCalls := a.pauseCalls + 1 }

/-- The state right after the script has loaded and `loadPlaylist` has read the
stored playlist: lines 5-12 of `Renderer.js`. -/
def startState (playlist : List Song) (favorites : List String)
    (recentlyPlayed : List Song) : State :=
  { currentPlaylist := playlist
    currentIndex := -1
    isPlaying := false
    audio := Audio.fresh
    shuffleMode := false
    repeatMode := false
    favorites := favorites
    recentlyPlayed := recentlyPlayed
    documentTitle := "" }

/-- `addToRecentlyPlayed(song)` as a function of the stored log:
`[song, ...recentlyPlayed.filter(s => s.id !== song.id)].slice(0, 10)`. -/
def addToRecentlyPlayed (song : Song) (recentlyPlayed : List Song) : List Song :=
  (song :: recentlyPlayed.filter (fun s => s.id != song.id)).take 10

/-- `playSong(index)`. When the lookup `currentPlaylist[index]` yields nothing
the `try` block throws at `song.url` after `currentIndex` was assigned. -/
def playSong (s : State) (index : Int) : State :=
  if index < 0 ∨ index ≥ (s.currentPlaylist.length : Int) then s
  else
    match s.currentPlaylist[index.toNat]? with
    | none => { s with currentIndex := index }
    | some song =>
      { s with
        currentIndex := index
        audio := Audio.play { s.audio with src := song.url }
        isPlaying := true
        recentlyPlayed := addToRecentlyPlayed song s.recentlyPlayed
        documentTitle := song.title ++ " - Music Player" }

/-- `togglePlay()`. -/
def togglePlay (s : State) : State :=
  if s.currentIndex = -1 ∧ s.currentPlaylist.length > 0 then playSong s 0
  else if s.isPlaying then
    { s with audio := s.audio.pause, isPlaying := false }
  else
    { s with audio := s.audio.play, isPlaying := true }

/-- The least `c ≥ b` with `n / 2 ^ c < 2 ^ 53`, searched in at most `fuel` steps. -/
def excessBitsFrom : Nat → Nat → Nat → Nat
  | 0, _, b => b
  | fuel + 1, n, b => if n / 2 ^ b < 2 ^ 53 then b else excessBitsFrom fuel n (b + 1)

/-- The number of low bits of `n` that do not fit a 53-bit significand. -/
def excessBits (n : Nat) : Nat := excessBitsFrom n n 0

/-- The integer with at most 53 significant bits nearest to `n`, ties going to
the even significand: `n * 2 ^ (-e)` rounds to the double
`roundToDouble n * 2 ^ (-e)` for every `e ≤ 1074`. -/
def roundToDouble (n : Nat) : Nat :=
  if 2 ^ excessBits n < 2 * (n % 2 ^ excessBits n) ∨
      (2 * (n % 2 ^ excessBits n) = 2 ^ excessBits n ∧ n / 2 ^ excessBits n % 2 = 1) then
    (n / 2 ^ excessBits n + 1) * 2 ^ excessBits n
  else n / 2 ^ excessBits n * 2 ^ excessBits n

/-- `Math.floor(Math.random() * length)`: the exact product is
`r.mant * length / 2 ^ r.exp` (an array length is below `2 ^ 32`, hence a double),
the multiplication rounds it to a double and `Math.floor` takes the integer
part. -/
def randomIndex (r : Rand) (length : Nat) : Nat :=
  roundToDouble (r.mant * length) / 2 ^ r.exp

/-- The resampling loop of `next` and `previous`:
`do { i = Math.floor(Math.random() * length) } while (i === currentIndex && length > 1)`.
Returns the accepted index and the random values not consumed. -/
def drawIndex (length : Nat) (currentIndex : Int) : List Rand → Option (Int × List Rand)
  | [] => none
  | r :: rs =>
    if (randomIndex r length : Int) = currentIndex ∧ length > 1 then
      drawIndex length currentIndex rs
    else some ((randomIndex r length : Int), rs)

/-- `next()`. -/
def next (s : State) (rs : List Rand) : Option (State × List Rand) :=
  if s.currentPlaylist.length = 0 then some (s, rs)
  else if s.shuffleMode then
    match drawIndex s.currentPlaylist.length s.currentIndex rs with
    | none => none
    | some (nextIndex, rest) => some (playSong s nextIndex, rest)
  else
    some (playSong s (Int.tmod (s.currentIndex + 1) s.currentPlaylist.length), rs)

/-- `previous()`. -/
def previous (s : State) (rs : List Rand) : Option (State × List Rand) :=
  if s.currentPlaylist.length = 0 then some (s, rs)
  else if s.shuffleMode then
    match drawIndex s.currentPlaylist.length s.currentIndex rs with
    | none => none
    | some (prevIndex, rest) => some (playSong s prevIndex, rest)
  else
    some (playSong s
      (Int.tmod (s.currentIndex - 1 + s.currentPlaylist.length) s.currentPlaylist.length), rs)

/-- `handleSongEnd()`, the listener of the `ended` event. -/
def handleSongEnd (s : State) (rs : List Rand) : Option (State × List Rand) :=
  if s.repeatMode then
    some ({ s with audio := Audio.play { s.audio with currentTime := 0 } }, rs)
  else next s rs

/-- `shuffle()`. -/
def shuffle (s : State) : State :=
  { s with shuffleMode := !s.shuffleMode }

/-- `repeat()`. -/
def «repeat» (s : State) : State :=
  { s with repeatMode := !s.repeatMode }

/-- `n` successive calls of `next()`. -/
def nextTimes : Nat → State → List Rand → Option (State × List Rand)
  | 0, s, rs => some (s, rs)
  | n + 1, s, rs =>
    match next s rs with
    | none => none
    | some (t, rest) => nextTimes n t rest

/-- `n` successive calls of `previous()`. -/
def previousTimes : Nat → State → List Rand → Option (State × List Rand)
  | 0, s, rs => some (s, rs)
  | n + 1, s, rs =>
    match previous s rs with
    | none => none
    | some (t, rest) => previousTimes n t rest

/-- The log after recording `tracks` one after another, first to last. -/
def recordAll (log : List Song) (tracks : List Song) : List Song :=
  tracks.foldl (fun acc t => addToRecentlyPlayed t acc) log

/-! ## Concrete data used in the examples -/

def songA : Song := { id := "a", title := "A", artist := "x", url := "file:///a.mp3", thumbnail := none }
def songB : Song := { id := "b", title := "B", artist := "x", url := "file:///b.mp3", thumbnail := none }
def songC : Song := { id := "c", title := "C", artist := "x", url := "file:///c.mp3", thumbnail := none }

/-- A track with the given id, all other fields fixed. -/
def track (id : String) : Song :=
  { id := id, title := "T", artist := "x", url := "file:///t.mp3", thumbnail := none }

/-- Eleven tracks with pairwise distinct ids. -/
def elevenTracks : List Song :=
  [track "1", track "2", track "3", track "4", track "5", track "6",
   track "7", track "8", track "9", track "10", track "11"]

/-- The value `0` of `Math.random()`. -/
def randZero : Rand := ⟨0, 0, by decide, by decide, by decide⟩

/-- The value `1/2` of `Math.random()`. -/
def randHalf : Rand := ⟨1, 1, by decide, by decide, by decide⟩

/-- The value `0.5714285714285714` of `Math.random()`, the double next below
`4/7`: its product with `7` rounds to `4.0`. -/
def randFourSevenths : Rand :=
  ⟨5146971002709138, 53, by decide, by decide, by decide⟩

/-- Seven tracks with pairwise distinct ids. -/
def sevenTracks : List Song :=
  [track "1", track "2", track "3", track "4", track "5", track "6", track "7"]

/-- The start state over `playlist`, moved to `currentIndex = index` with
`shuffleMode` and `repeatMode` as given. -/
def stateAt (playlist : List Song) (index : Int) (shuffleMode repeatMode : Bool) : State :=
  { startState playlist [] [] with
    currentIndex := index
    shuffleMode := shuffleMode
    repeatMode := repeatMode }

/-! ## Favorites, seeking and playlist growth -/

/-- `favorites.indexOf(songId)`: the position of the first occurrence, `-1` when
there is none. -/
def indexOf (favorites : List String) (songId : String) : Int :=
  if songId ∈ favorites then (favorites.indexOf songId : Int) else -1

/-- `favorites.includes(songId)`. -/
def isFavorite (s : State) (songId : String) : Bool :=
  s.favorites.contains songId

/-- `toggleFavorite(songId, event)`: `push` when `indexOf` is `-1`, else
`splice(index, 1)`. -/
def toggleFavorite (s : State) (songId : String) : State :=
  if indexOf s.favorites songId = -1 then
    { s with favorites := s.favorites ++ [songId] }
  else
    { s with favorites := s.favorites.eraseIdx (indexOf s.favorites songId).toNat }

/-- What `seek` reads from its event: `event.clientX` and the `left` and `width`
of `event.currentTarget.getBoundingClientRect()`. -/
structure ClickEvent where
  clientX : ℚ
  left : ℚ
  width : ℚ
deriving DecidableEq

/-- Rounding of an exact result to the nearest double. Of the IEEE 754 rounding
only monotonicity and exactness at `0` are used, so the operator is kept
abstract. -/
structure Rounding where
  fl : ℚ → ℚ
  mono : ∀ a b : ℚ, a ≤ b → fl a ≤ fl b
  zero : fl 0 = 0

/-- Arithmetic whose results are all doubles already, so that nothing is
rounded. -/
def Rounding.exact : Rounding :=
  { fl := fun q => q, mono := fun _ _ h => h, zero := rfl }

/-- The variable `percent` of `seek`:
`(event.clientX - rect.left) / rect.width`, `none` when `rect.width` is `0`
(the quotient is then an infinity or `NaN`). -/
def seekPercent (R : Rounding) (event : ClickEvent) : Option ℚ :=
  if event.width = 0 then none
  else some (R.fl (R.fl (event.clientX - event.left) / event.width))

/-- The `currentTime` setter of a media element whose duration `d` is known,
given a finite `value`: it seeks, and the seek algorithm of the HTML standard
replaces a position later than the end of the media by the end and a position
before the start by the start. -/
def Audio.seekTo (a : Audio) (d value : ℚ) : Audio :=
  { a with currentTime := max 0 (min value d) }

/-- `seek(event)`: `audio.currentTime = percent * audio.duration`. The argument
`duration` is `audio.duration`, `none` standing for an unknown duration (`NaN`).
The result is `none` when the value to assign is not a finite number
(`rect.width` is `0` or the duration is unknown): the `currentTime` setter then
throws and nothing is assigned. -/
def seek (R : Rounding) (s : State) (event : ClickEvent) (duration : Option ℚ) :
    Option State :=
  match seekPercent R event, duration with
  | some percent, some d =>
    some { s with audio := s.audio.seekTo d (R.fl (percent * d)) }
  | _, _ => none

/-- The state once the `seek` handler has ended, normally or by the exception
of the setter. -/
def afterSeek (R : Rounding) (s : State) (event : ClickEvent) (duration : Option ℚ) :
    State :=
  (seek R s event duration).getD s

/-- The success branch of `processUrl()`: `currentPlaylist.push(newSong)` followed
by `addToRecentlyPlayed(newSong)`. The other branches leave the state alone. -/
def processUrl (s : State) (newSong : Song) : State :=
  { s with
    currentPlaylist := s.currentPlaylist ++ [newSong]
    recentlyPlayed := addToRecentlyPlayed newSong s.recentlyPlayed }

/-- The success branch of `addLocalFile()`: `currentPlaylist.push(newSong)`. -/
def addLocalFile (s : State) (newSong : Song) : State :=
  { s with currentPlaylist := s.currentPlaylist ++ [newSong] }

/-- The `drop` listener on an audio file: `currentPlaylist.push(newSong)`. -/
def dropFile (s : State) (newSong : Song) : State :=
  { s with currentPlaylist := s.currentPlaylist ++ [newSong] }

/-- The user intents and player events that act on the playback state. -/
inductive Action where
  | playSong (index : Int)
  | togglePlay
  | next
  | previous
  | handleSongEnd
  | shuffle
  | «repeat»
  | processUrl (newSong : Song)
  | addLocalFile (newSong : Song)
  | dropFile (newSong : Song)
deriving DecidableEq

/-- One action, run to completion on state `s` with random source `rs`. -/
def step (s : State) (rs : List Rand) : Action → Option (State × List Rand)
  | Action.playSong index => some (playSong s index, rs)
  | Action.togglePlay => some (togglePlay s, rs)
  | Action.next => next s rs
  | Action.previous => previous s rs
  | Action.handleSongEnd => handleSongEnd s rs
  | Action.shuffle => some (shuffle s, rs)
  | Action.«repeat» => some (MusicPlayer.«repeat» s, rs)
  | Action.processUrl newSong => some (processUrl s newSong, rs)
  | Action.addLocalFile newSong => some (addLocalFile s newSong, rs)
  | Action.dropFile newSong => some (dropFile s newSong, rs)

/-- A sequence of actions, each run to completion before the next one starts. -/
def run (s : State) (rs : List Rand) : List Action → Option (State × List Rand)
  | [] => some (s, rs)
  | a :: rest =>
    match step s rs a with
    | none => none
    | some (t, left) => run t left rest

/-- `currentIndex` is the sentinel `-1` or a position of the playlist. -/
def IndexOk (s : State) : Prop :=
  s.currentIndex = -1 ∨
    (0 ≤ s.currentIndex ∧ s.currentIndex < (s.currentPlaylist.length : Int))

instance (s : State) : Decidable (IndexOk s) := by
  unfold IndexOk
  infer_instance

/-- A start state whose stored favorites hold the id `"a"` twice. -/
def twiceFavorite : State := startState [songA] ["a", "a"] []

/-- A click 100 px left of a bar spanning `[100, 300]`. -/
def clickBefore : ClickEvent := { clientX := 0, left := 100, width := 200 }

/-- A click 100 px right of a bar spanning `[100, 300]`. -/
def clickBeyond : ClickEvent := { clientX := 400, left := 100, width := 200 }

/-- A click a quarter into a bar spanning `[100, 300]`. -/
def clickQuarter : ClickEvent := { clientX := 150, left := 100, width := 200 }

/-! ## Frame lemmas for `playSong` -/

theorem playSong_of_invalid (s : State) (index : Int)
    (h : index < 0 ∨ index ≥ (s.currentPlaylist.length : Int)) : playSong s index = s := by
  unfold playSong
  rw [if_pos h]

theorem playSong_currentPlaylist (s : State) (index : Int) :
    (playSong s index).currentPlaylist = s.currentPlaylist := by
  unfold playSong
  split
  · rfl
  · split <;> rfl

theorem playSong_shuffleMode (s : State) (index : Int) :
    (playSong s index).shuffleMode = s.shuffleMode := by
  unfold playSong
  split
  · rfl
  · split <;> rfl

theorem playSong_repeatMode (s : State) (index : Int) :
    (playSong s index).repeatMode = s.repeatMode := by
  unfold playSong
  split
  · rfl
  · split <;> rfl

theorem playSong_currentIndex (s : State) (index : Int)
    (h0 : 0 ≤ index) (hlt : index < (s.currentPlaylist.length : Int)) :
    (playSong s index).currentIndex = index := by
  unfold playSong
  rw [if_neg (by omega)]
  split <;> rfl

theorem playSong_isPlaying (s : State) (index : Int)
    (h0 : 0 ≤ index) (hlt : index < (s.currentPlaylist.length : Int)) :
    (playSong s index).isPlaying = true := by
  unfold playSong
  rw [if_neg (by omega)]
  have hn : index.toNat < s.currentPlaylist.length := by omega
  rw [List.getElem?_eq_getElem hn]

/-! ## Playback controller -/

/-- C1. `playSong(index)` with `index < 0` or `index >= currentPlaylist.length`
returns the state it was given (so `currentIndex`, `isPlaying`, the playlist and
the recently-played log are unchanged); with `0 <= index < currentPlaylist.length`
it sets `currentIndex` to `index` and `isPlaying` to `true`. -/
theorem playSong_guard (s : State) (index : Int) :
    ((index < 0 ∨ index ≥ (s.currentPlaylist.length : Int)) →
      playSong s index = s ∧
      (playSong s index).currentIndex = s.currentIndex ∧
      (playSong s index).isPlaying = s.isPlaying ∧
      (playSong s index).currentPlaylist = s.currentPlaylist ∧
      (playSong s index).recentlyPlayed = s.recentlyPlayed) ∧
    ((0 ≤ index ∧ index < (s.currentPlaylist.length : Int)) →
      (playSong s index).currentIndex = index ∧ (playSong s index).isPlaying = true) := by
  refine ⟨fun h => ?_, fun h => ?_⟩
  · rw [playSong_of_invalid s index h]
    exact ⟨rfl, rfl, rfl, rfl, rfl⟩
  · exact ⟨playSong_currentIndex s index h.1 h.2, playSong_isPlaying s index h.1 h.2⟩

theorem playSong_guard_witness :
    (playSong (startState [songA, songB, songC] [] []) 3
        = startState [songA, songB, songC] [] []) ∧
    (playSong (startState [songA, songB, songC] [] []) (-1)
        = startState [songA, songB, songC] [] []) ∧
    ((playSong (startState [songA, songB, songC] [] []) 2).currentIndex = 2 ∧
      (playSong (startState [songA, songB, songC] [] []) 2).isPlaying = true) :=
  ⟨((playSong_guard (startState [songA, songB, songC] [] []) 3).1 (by decide)).1,
   ((playSong_guard (startState [songA, songB, songC] [] []) (-1)).1 (by decide)).1,
   (playSong_guard (startState [songA, songB, songC] [] []) 2).2 (by decide)⟩

/-! ## Sequential selection (`shuffleMode` off) -/

theorem next_sequential (s : State) (rs : List Rand)
    (hN : 1 ≤ s.currentPlaylist.length) (hs : s.shuffleMode = false) :
    next s rs =
      some (playSong s (Int.tmod (s.currentIndex + 1) s.currentPlaylist.length), rs) := by
  unfold next
  rw [if_neg (by omega)]
  simp [hs]

theorem previous_sequential (s : State) (rs : List Rand)
    (hN : 1 ≤ s.currentPlaylist.length) (hs : s.shuffleMode = false) :
    previous s rs =
      some (playSong s
        (Int.tmod (s.currentIndex - 1 + s.currentPlaylist.length) s.currentPlaylist.length),
        rs) := by
  unfold previous
  rw [if_neg (by omega)]
  simp [hs]

/-- After `k` calls of `next()` from a valid index the index has advanced by `k`
modulo the playlist length; playlist, mode and random source are untouched. -/
theorem nextTimes_sequential (k : Nat) (rs : List Rand) :
    ∀ s : State, 1 ≤ s.currentPlaylist.length → s.shuffleMode = false →
      0 ≤ s.currentIndex → s.currentIndex < (s.currentPlaylist.length : Int) →
      ∃ t, nextTimes k s rs = some (t, rs) ∧
        t.currentIndex = (s.currentIndex + k) % (s.currentPlaylist.length : Int) ∧
        t.currentPlaylist = s.currentPlaylist ∧ t.shuffleMode = false := by
  induction k with
  | zero =>
    intro s _ hs h0 hlt
    refine ⟨s, rfl, ?_, rfl, hs⟩
    simp only [Nat.cast_zero, add_zero]
    exact (Int.emod_eq_of_lt h0 hlt).symm
  | succ k ih =>
    intro s hN hs h0 hlt
    have hpos : (0 : Int) < (s.currentPlaylist.length : Int) := by omega
    have hstep : Int.tmod (s.currentIndex + 1) s.currentPlaylist.length
        = (s.currentIndex + 1) % (s.currentPlaylist.length : Int) :=
      Int.tmod_eq_emod (by omega) (by omega)
    have hge : 0 ≤ (s.currentIndex + 1) % (s.currentPlaylist.length : Int) :=
      Int.emod_nonneg _ (by omega)
    have hlt2 : (s.currentIndex + 1) % (s.currentPlaylist.length : Int)
        < (s.currentPlaylist.length : Int) := Int.emod_lt_of_pos _ hpos
    obtain ⟨t, ht, hidx, hpl, hsh⟩ :=
      ih (playSong s ((s.currentIndex + 1) % (s.currentPlaylist.length : Int)))
        (by rw [playSong_currentPlaylist]; exact hN)
        (by rw [playSong_shuffleMode]; exact hs)
        (by rw [playSong_currentIndex s _ hge hlt2]; exact hge)
        (by rw [playSong_currentIndex s _ hge hlt2, playSong_currentPlaylist]; exact hlt2)
    refine ⟨t, ?_, ?_, ?_, hsh⟩
    · simp only [nextTimes, next_sequential s rs hN hs, hstep]
      exact ht
    · rw [hidx, playSong_currentIndex s _ hge hlt2, playSong_currentPlaylist]
      rw [Int.emod_add_emod]
      congr 1
      push_cast
      ring
    · rw [hpl, playSong_currentPlaylist]

/-- After `k` calls of `previous()` from a valid index the index has moved back
by `k` modulo the playlist length. -/
theorem previousTimes_sequential (k : Nat) (rs : List Rand) :
    ∀ s : State, 1 ≤ s.currentPlaylist.length → s.shuffleMode = false →
      0 ≤ s.currentIndex → s.currentIndex < (s.currentPlaylist.length : Int) →
      ∃ t, previousTimes k s rs = some (t, rs) ∧
        t.currentIndex = (s.currentIndex - k) % (s.currentPlaylist.length : Int) ∧
        t.currentPlaylist = s.currentPlaylist ∧ t.shuffleMode = false := by
  induction k with
  | zero =>
    intro s _ hs h0 hlt
    refine ⟨s, rfl, ?_, rfl, hs⟩
    simp only [Nat.cast_zero, sub_zero]
    exact (Int.emod_eq_of_lt h0 hlt).symm
  | succ k ih =>
    intro s hN hs h0 hlt
    have hpos : (0 : Int) < (s.currentPlaylist.length : Int) := by omega
    have hstep : Int.tmod (s.currentIndex - 1 + s.currentPlaylist.length)
          s.currentPlaylist.length
        = (s.currentIndex - 1 + s.currentPlaylist.length) % (s.currentPlaylist.length : Int) :=
      Int.tmod_eq_emod (by omega) (by omega)
    have hge : 0 ≤ (s.currentIndex - 1 + s.currentPlaylist.length)
        % (s.currentPlaylist.length : Int) := Int.emod_nonneg _ (by omega)
    have hlt2 : (s.currentIndex - 1 + s.currentPlaylist.length)
        % (s.currentPlaylist.length : Int) < (s.currentPlaylist.length : Int) :=
      Int.emod_lt_of_pos _ hpos
    obtain ⟨t, ht, hidx, hpl, hsh⟩ :=
      ih (playSong s ((s.currentIndex - 1 + s.currentPlaylist.length)
            % (s.currentPlaylist.length : Int)))
        (by rw [playSong_currentPlaylist]; exact hN)
        (by rw [playSong_shuffleMode]; exact hs)
        (by rw [playSong_currentIndex s _ hge hlt2]; exact hge)
        (by rw [playSong_currentIndex s _ hge hlt2, playSong_currentPlaylist]; exact hlt2)
    refine ⟨t, ?_, ?_, ?_, hsh⟩
    · simp only [previousTimes, previous_sequential s rs hN hs, hstep]
      exact ht
    · rw [hidx, playSong_currentIndex s _ hge hlt2, playSong_currentPlaylist]
      rw [Int.add_emod_self, sub_eq_add_neg _ (k : Int), Int.emod_add_emod]
      congr 1
      push_cast
      ring
    · rw [hpl, playSong_currentPlaylist]

/-- C2. With `shuffleMode` off, a playlist of length `N >= 1` and a valid
`currentIndex = i`: one `next()` plays index `(i + 1) mod N` (so the last index
wraps to `0`), and `N` successive calls of `next()` end with `currentIndex = i`. -/
theorem next_cycle (s : State) (rs : List Rand)
    (hN : 1 ≤ s.currentPlaylist.length) (hs : s.shuffleMode = false)
    (h0 : 0 ≤ s.currentIndex) (hlt : s.currentIndex < (s.currentPlaylist.length : Int)) :
    (∃ t, next s rs = some (t, rs) ∧
      t.currentIndex = (s.currentIndex + 1) % (s.currentPlaylist.length : Int) ∧
      (s.currentIndex = (s.currentPlaylist.length : Int) - 1 → t.currentIndex = 0)) ∧
    (∃ t, nextTimes s.currentPlaylist.length s rs = some (t, rs) ∧
      t.currentIndex = s.currentIndex) := by
  have hpos : (0 : Int) < (s.currentPlaylist.length : Int) := by omega
  constructor
  · obtain ⟨t, ht, hidx, -, -⟩ := nextTimes_sequential 1 rs s hN hs h0 hlt
    refine ⟨t, ?_, by simpa using hidx, ?_⟩
    · simp only [nextTimes] at ht
      cases hn : next s rs with
      | none => rw [hn] at ht; cases ht
      | some p =>
        obtain ⟨u, rest⟩ := p
        rw [hn] at ht
        simp only [nextTimes] at ht
        exact ht
    · intro hlast
      rw [hidx, hlast]
      simp
  · obtain ⟨t, ht, hidx, -, -⟩ := nextTimes_sequential s.currentPlaylist.length rs s hN hs h0 hlt
    refine ⟨t, ht, ?_⟩
    rw [hidx, Int.add_emod_self]
    exact Int.emod_eq_of_lt h0 hlt

theorem next_cycle_witness :
    (∃ t, next (stateAt [songA, songB, songC] 2 false false) [] = some (t, []) ∧
      t.currentIndex = (2 + 1) % 3 ∧ ((2 : Int) = 3 - 1 → t.currentIndex = 0)) ∧
    (∃ t, nextTimes 3 (stateAt [songA, songB, songC] 2 false false) [] = some (t, []) ∧
      t.currentIndex = 2) :=
  next_cycle (stateAt [songA, songB, songC] 2 false false) []
    (by decide) rfl (by decide) (by decide)

/-- C3. With `shuffleMode` off, a playlist of length `N >= 1` and a valid
`currentIndex = i`: `N` successive calls of `previous()` end with
`currentIndex = i`, and one `previous()` from index `0` plays index `N - 1`. -/
theorem previous_cycle (s : State) (rs : List Rand)
    (hN : 1 ≤ s.currentPlaylist.length) (hs : s.shuffleMode = false)
    (h0 : 0 ≤ s.currentIndex) (hlt : s.currentIndex < (s.currentPlaylist.length : Int)) :
    (∃ t, previousTimes s.currentPlaylist.length s rs = some (t, rs) ∧
      t.currentIndex = s.currentIndex) ∧
    (∃ t, previous s rs = some (t, rs) ∧
      t.currentIndex = (s.currentIndex - 1) % (s.currentPlaylist.length : Int) ∧
      (s.currentIndex = 0 → t.currentIndex = (s.currentPlaylist.length : Int) - 1)) := by
  have hpos : (0 : Int) < (s.currentPlaylist.length : Int) := by omega
  constructor
  · obtain ⟨t, ht, hidx, -, -⟩ :=
      previousTimes_sequential s.currentPlaylist.length rs s hN hs h0 hlt
    refine ⟨t, ht, ?_⟩
    rw [hidx, ← Int.add_emod_self, sub_add_cancel]
    exact Int.emod_eq_of_lt h0 hlt
  · have hstep : Int.tmod (s.currentIndex - 1 + s.currentPlaylist.length)
          s.currentPlaylist.length
        = (s.currentIndex - 1) % (s.currentPlaylist.length : Int) := by
      rw [Int.tmod_eq_emod (by omega) (by omega), Int.add_emod_self]
    have hge : 0 ≤ (s.currentIndex - 1) % (s.currentPlaylist.length : Int) :=
      Int.emod_nonneg _ (by omega)
    have hlt2 : (s.currentIndex - 1) % (s.currentPlaylist.length : Int)
        < (s.currentPlaylist.length : Int) := Int.emod_lt_of_pos _ hpos
    refine ⟨playSong s ((s.currentIndex - 1) % (s.currentPlaylist.length : Int)), ?_,
      playSong_currentIndex s _ hge hlt2, ?_⟩
    · rw [previous_sequential s rs hN hs, hstep]
    · intro hz
      rw [playSong_currentIndex s _ hge hlt2, hz, ← Int.add_emod_self,
        Int.emod_eq_of_lt (by omega) (by omega)]
      ring

theorem previous_cycle_witness :
    (∃ t, previousTimes 3 (stateAt [songA, songB, songC] 0 false false) [] = some (t, []) ∧
      t.currentIndex = 0) ∧
    (∃ t, previous (stateAt [songA, songB, songC] 0 false false) [] = some (t, []) ∧
      t.currentIndex = (0 - 1) % 3 ∧ ((0 : Int) = 0 → t.currentIndex = 3 - 1)) :=
  previous_cycle (stateAt [songA, songB, songC] 0 false false) []
    (by decide) rfl (by decide) (by decide)

/-! ## Random selection (`shuffleMode` on) -/

/-- The search stops at the least shift that leaves fewer than 54 bits. -/
theorem excessBitsFrom_spec (n : Nat) :
    ∀ (fuel b : Nat), n / 2 ^ (b + fuel) < 2 ^ 53 → (∀ c, c < b → 2 ^ 53 ≤ n / 2 ^ c) →
      n / 2 ^ excessBitsFrom fuel n b < 2 ^ 53 ∧
      ∀ c, c < excessBitsFrom fuel n b → 2 ^ 53 ≤ n / 2 ^ c := by
  intro fuel
  induction fuel with
  | zero =>
    intro b hb hlow
    exact ⟨by simpa [excessBitsFrom] using hb, by simpa [excessBitsFrom] using hlow⟩
  | succ fuel ih =>
    intro b hb hlow
    unfold excessBitsFrom
    split
    · rename_i hfit
      exact ⟨hfit, hlow⟩
    · rename_i hbig
      apply ih (b + 1)
      · have he : b + 1 + fuel = b + (fuel + 1) := by omega
        rw [he]; exact hb
      · intro c hc
        rcases Nat.lt_succ_iff_lt_or_eq.mp hc with h | h
        · exact hlow c h
        · subst h; omega

theorem excessBits_spec (n : Nat) :
    n / 2 ^ excessBits n < 2 ^ 53 ∧ ∀ c, c < excessBits n → 2 ^ 53 ≤ n / 2 ^ c := by
  apply excessBitsFrom_spec n n 0
  · rw [Nat.zero_add, Nat.div_eq_of_lt (Nat.lt_two_pow n)]
    exact Nat.two_pow_pos _
  · intro c hc
    omega

/-- When bits are dropped the kept significand has exactly 53 bits. -/
theorem half_le_significand (n : Nat) (hpos : 0 < excessBits n) :
    2 ^ 52 ≤ n / 2 ^ excessBits n := by
  obtain ⟨b, hb⟩ : ∃ b, excessBits n = b + 1 := ⟨excessBits n - 1, by omega⟩
  have h := (excessBits_spec n).2 b (by omega)
  have hdiv : n / 2 ^ (b + 1) = n / 2 ^ b / 2 := by
    rw [Nat.pow_succ, Nat.div_div_eq_div_mul]
  rw [hb, hdiv]
  omega

/-- A double below 1 is at most `1 - 2 ^ (-53)`. -/
theorem Rand.le_pred_one (r : Rand) : r.mant * 2 ^ 53 ≤ (2 ^ 53 - 1) * 2 ^ r.exp := by
  have h1 := r.mant_lt
  have h2 := r.lt_one
  generalize 2 ^ r.exp = K at *
  by_cases hK : K ≤ 2 ^ 53
  · have h3 : (r.mant + 1) * 2 ^ 53 ≤ K * 2 ^ 53 := Nat.mul_le_mul_right _ h2
    have h4 : (2 ^ 53 - 1) * K = K * 2 ^ 53 - K := by
      rw [Nat.sub_mul, Nat.mul_comm, Nat.one_mul]
    rw [h4]
    norm_num at *
    omega
  · have h3 : r.mant * 2 ^ 53 ≤ (2 ^ 53 - 1) * 2 ^ 53 := Nat.mul_le_mul_right _ (by omega)
    have h4 : (2 ^ 53 - 1) * 2 ^ 53 ≤ (2 ^ 53 - 1) * K := Nat.mul_le_mul_left _ (by omega)
    exact h3.trans h4

/-- The rounded product of a double below `1` and `length` stays below
`length`, so its integer part is a position of the playlist. -/
theorem randomIndex_lt (r : Rand) (length : Nat) (h : 0 < length) :
    randomIndex r length < length := by
  unfold randomIndex
  rw [Nat.div_lt_iff_lt_mul (Nat.two_pow_pos _)]
  have hexact : r.mant * length < length * 2 ^ r.exp := by
    rw [Nat.mul_comm length]
    exact Nat.mul_lt_mul_of_pos_right r.lt_one h
  have hdm := Nat.div_add_mod (r.mant * length) (2 ^ excessBits (r.mant * length))
  have hB : 0 < 2 ^ excessBits (r.mant * length) := Nat.two_pow_pos _
  unfold roundToDouble
  split
  · rename_i hup
    have hhalf : 2 ^ excessBits (r.mant * length)
        ≤ 2 * (r.mant * length % 2 ^ excessBits (r.mant * length)) := by
      rcases hup with h1 | h1
      · exact h1.le
      · exact h1.1.ge
    have hbpos : 0 < excessBits (r.mant * length) := by
      by_contra hz
      have hz0 : excessBits (r.mant * length) = 0 := by omega
      rw [hz0] at hhalf
      simp [Nat.mod_one] at hhalf
    have hq := half_le_significand (r.mant * length) hbpos
    have hr := r.le_pred_one
    by_contra hge
    rw [Nat.not_lt] at hge
    generalize 2 ^ excessBits (r.mant * length) = B at *
    generalize r.mant * length / B = q at *
    generalize r.mant * length % B = rem at *
    generalize 2 ^ r.exp = K at *
    have e1 : (2 * q + 1) * B ≤ 2 * (r.mant * length) := by
      have : (2 * q + 1) * B = 2 * (B * q) + B := by ring
      omega
    have e2 : 2 * (r.mant * length) * 2 ^ 53 ≤ 2 * (2 ^ 53 - 1) * (length * K) := by
      have : 2 * (r.mant * length) * 2 ^ 53 = 2 * length * (r.mant * 2 ^ 53) := by ring
      rw [this]
      have : 2 * (2 ^ 53 - 1) * (length * K) = 2 * length * ((2 ^ 53 - 1) * K) := by ring
      rw [this]
      exact Nat.mul_le_mul_left _ hr
    have e3 : 2 * (2 ^ 53 - 1) * (length * K) ≤ 2 * (2 ^ 53 - 1) * ((q + 1) * B) :=
      Nat.mul_le_mul_left _ hge
    have e4 : (2 * q + 1) * B * 2 ^ 53 ≤ 2 * (2 ^ 53 - 1) * ((q + 1) * B) :=
      (Nat.mul_le_mul_right _ e1).trans (e2.trans e3)
    have e5 : ((2 * q + 1) * 2 ^ 53) * B ≤ (2 * (2 ^ 53 - 1) * (q + 1)) * B := by
      calc ((2 * q + 1) * 2 ^ 53) * B = (2 * q + 1) * B * 2 ^ 53 := by ring
        _ ≤ 2 * (2 ^ 53 - 1) * ((q + 1) * B) := e4
        _ = (2 * (2 ^ 53 - 1) * (q + 1)) * B := by ring
    have e6 := Nat.le_of_mul_le_mul_right e5 hB
    norm_num at e6 hq
    omega
  · have hle : r.mant * length / 2 ^ excessBits (r.mant * length)
        * 2 ^ excessBits (r.mant * length) ≤ r.mant * length :=
      Nat.div_mul_le_self _ _
    omega

/-- The double product of `0.5714285714285714` and `7` is `4.0`, although the
exact product is below `4`. -/
theorem randomIndex_rounds_up : randomIndex randFourSevenths 7 = 4 := by
  decide

/-- Whatever the loop accepts is a playlist index, and differs from
`currentIndex` when the playlist has more than one entry. -/
theorem drawIndex_accepts (length : Nat) (currentIndex : Int) (h : 0 < length) :
    ∀ (rs : List Rand) (i : Int) (rest : List Rand),
      drawIndex length currentIndex rs = some (i, rest) →
      0 ≤ i ∧ i < (length : Int) ∧ (1 < length → i ≠ currentIndex) := by
  intro rs
  induction rs with
  | nil => intro i rest hd; simp [drawIndex] at hd
  | cons r rs ih =>
    intro i rest hd
    unfold drawIndex at hd
    split at hd
    · exact ih i rest hd
    · rename_i hne
      simp only [Option.some.injEq, Prod.mk.injEq] at hd
      obtain ⟨hi, -⟩ := hd
      subst hi
      have hlt := randomIndex_lt r length h
      refine ⟨by omega, by omega, fun h1 heq => hne ⟨heq, h1⟩⟩

/-- With a single entry the loop stops at its first draw, on index `0`. -/
theorem drawIndex_single (currentIndex : Int) (r : Rand) (rs : List Rand) :
    drawIndex 1 currentIndex (r :: rs) = some (0, rs) := by
  have hlt := randomIndex_lt r 1 (by decide)
  have hz : randomIndex r 1 = 0 := by omega
  unfold drawIndex
  rw [if_neg (by omega), hz]
  rfl

theorem next_shuffle_accepts (s t : State) (rs rest : List Rand)
    (hN : 1 ≤ s.currentPlaylist.length) (hs : s.shuffleMode = true)
    (h : next s rs = some (t, rest)) :
    ∃ i : Int, drawIndex s.currentPlaylist.length s.currentIndex rs = some (i, rest) ∧
      t = playSong s i := by
  unfold next at h
  rw [if_neg (by omega)] at h
  simp only [hs, if_true] at h
  cases hd : drawIndex s.currentPlaylist.length s.currentIndex rs with
  | none => rw [hd] at h; cases h
  | some p =>
    obtain ⟨i, rest2⟩ := p
    rw [hd] at h
    simp only [Option.some.injEq, Prod.mk.injEq] at h
    exact ⟨i, by rw [h.2], h.1.symm⟩

theorem previous_shuffle_accepts (s t : State) (rs rest : List Rand)
    (hN : 1 ≤ s.currentPlaylist.length) (hs : s.shuffleMode = true)
    (h : previous s rs = some (t, rest)) :
    ∃ i : Int, drawIndex s.currentPlaylist.length s.currentIndex rs = some (i, rest) ∧
      t = playSong s i := by
  unfold previous at h
  rw [if_neg (by omega)] at h
  simp only [hs, if_true] at h
  cases hd : drawIndex s.currentPlaylist.length s.currentIndex rs with
  | none => rw [hd] at h; cases h
  | some p =>
    obtain ⟨i, rest2⟩ := p
    rw [hd] at h
    simp only [Option.some.injEq, Prod.mk.injEq] at h
    exact ⟨i, by rw [h.2], h.1.symm⟩

/-- C4. With `shuffleMode` on and a playlist of length `N >= 2`, whenever the
resampling loop of `next()` (likewise `previous()`) stops, the index `i` handed
to `playSong` satisfies `0 <= i < N` and differs from the `currentIndex` held
before the call; it becomes the new `currentIndex`. -/
theorem shuffle_pick_fresh (s t : State) (rs rest : List Rand)
    (hN : 2 ≤ s.currentPlaylist.length) (hs : s.shuffleMode = true) :
    (next s rs = some (t, rest) →
      ∃ i : Int, t = playSong s i ∧ t.currentIndex = i ∧
        0 ≤ i ∧ i < (s.currentPlaylist.length : Int) ∧ i ≠ s.currentIndex) ∧
    (previous s rs = some (t, rest) →
      ∃ i : Int, t = playSong s i ∧ t.currentIndex = i ∧
        0 ≤ i ∧ i < (s.currentPlaylist.length : Int) ∧ i ≠ s.currentIndex) := by
  constructor
  · intro h
    obtain ⟨i, hd, ht⟩ := next_shuffle_accepts s t rs rest (by omega) hs h
    obtain ⟨h0, hlt, hne⟩ := drawIndex_accepts _ _ (by omega) rs i rest hd
    exact ⟨i, ht, by rw [ht, playSong_currentIndex s i h0 hlt], h0, hlt, hne (by omega)⟩
  · intro h
    obtain ⟨i, hd, ht⟩ := previous_shuffle_accepts s t rs rest (by omega) hs h
    obtain ⟨h0, hlt, hne⟩ := drawIndex_accepts _ _ (by omega) rs i rest hd
    exact ⟨i, ht, by rw [ht, playSong_currentIndex s i h0 hlt], h0, hlt, hne (by omega)⟩

theorem shuffle_pick_fresh_witness :
    (next (stateAt sevenTracks 4 true false) [randFourSevenths, randZero]
        = some (playSong (stateAt sevenTracks 4 true false) 0, []) ∧
      ∃ i : Int, playSong (stateAt sevenTracks 4 true false) 0
          = playSong (stateAt sevenTracks 4 true false) i ∧
        (playSong (stateAt sevenTracks 4 true false) 0).currentIndex = i ∧
        0 ≤ i ∧ i < 7 ∧ i ≠ 4) ∧
    (previous (stateAt [songA, songB, songC] 1 true false) [randHalf, randZero]
        = some (playSong (stateAt [songA, songB, songC] 1 true false) 0, []) ∧
      ∃ i : Int, playSong (stateAt [songA, songB, songC] 1 true false) 0
          = playSong (stateAt [songA, songB, songC] 1 true false) i ∧
        (playSong (stateAt [songA, songB, songC] 1 true false) 0).currentIndex = i ∧
        0 ≤ i ∧ i < 3 ∧ i ≠ 1) :=
  ⟨⟨by decide,
    (shuffle_pick_fresh (stateAt sevenTracks 4 true false)
      (playSong (stateAt sevenTracks 4 true false) 0) [randFourSevenths, randZero] []
      (by decide) rfl).1 (by decide)⟩,
   ⟨by decide,
    (shuffle_pick_fresh (stateAt [songA, songB, songC] 1 true false)
      (playSong (stateAt [songA, songB, songC] 1 true false) 0) [randHalf, randZero] []
      (by decide) rfl).2 (by decide)⟩⟩

/-- C5. With `shuffleMode` on and a playlist of exactly one entry, for every
`currentIndex` and every first random value, `next()` and `previous()` consume
exactly one random value and play index `0`. -/
theorem shuffle_single_entry (s : State) (r : Rand) (rs : List Rand)
    (h1 : s.currentPlaylist.length = 1) (hs : s.shuffleMode = true) :
    next s (r :: rs) = some (playSong s 0, rs) ∧
    previous s (r :: rs) = some (playSong s 0, rs) ∧
    (playSong s 0).currentIndex = 0 := by
  refine ⟨?_, ?_, playSong_currentIndex s 0 (le_refl _) (by omega)⟩
  · unfold next
    rw [if_neg (by omega)]
    simp only [hs, if_true, h1, drawIndex_single]
  · unfold previous
    rw [if_neg (by omega)]
    simp only [hs, if_true, h1, drawIndex_single]

theorem shuffle_single_entry_witness :
    next (stateAt [songA] (-1) true false) [randHalf, randZero]
        = some (playSong (stateAt [songA] (-1) true false) 0, [randZero]) ∧
    previous (stateAt [songA] (-1) true false) [randHalf, randZero]
        = some (playSong (stateAt [songA] (-1) true false) 0, [randZero]) ∧
    (playSong (stateAt [songA] (-1) true false) 0).currentIndex = 0 :=
  shuffle_single_entry (stateAt [songA] (-1) true false) randHalf [randZero] rfl rfl

/-! ## End of track and play/pause -/

/-- C6. From every state (in particular every state whose `currentIndex` is a
valid playlist index): with `repeatMode` on, `handleSongEnd()` rewinds and
replays (one more `play()` request, position `0`) and leaves `currentIndex`,
the playlist, the recently-played log and the random source unchanged, whatever
`shuffleMode` is; with `repeatMode` off it returns exactly what `next()`
returns, so with `shuffleMode` off on a 3-entry playlist at index 2 it moves to
index 0. -/
theorem handleSongEnd_repeat_or_next (s : State) (rs : List Rand) :
    (s.repeatMode = true →
      ∃ t, handleSongEnd s rs = some (t, rs) ∧
        t.currentIndex = s.currentIndex ∧
        t.currentPlaylist = s.currentPlaylist ∧
        t.recentlyPlayed = s.recentlyPlayed ∧
        t.audio.currentTime = 0 ∧ t.audio.playCalls = s.audio.playCalls + 1) ∧
    (s.repeatMode = false → handleSongEnd s rs = next s rs) ∧
    (s.repeatMode = false → s.shuffleMode = false → s.currentPlaylist.length = 3 →
      s.currentIndex = 2 →
      ∃ t, handleSongEnd s rs = some (t, rs) ∧ t.currentIndex = 0) := by
  refine ⟨fun hr => ?_, fun hr => ?_, fun hr hs h3 h2 => ?_⟩
  · refine ⟨{ s with audio := Audio.play { s.audio with currentTime := 0 } },
      ?_, rfl, rfl, rfl, rfl, rfl⟩
    unfold handleSongEnd
    rw [if_pos hr]
  · unfold handleSongEnd
    simp [hr]
  · have hidx : Int.tmod (s.currentIndex + 1) s.currentPlaylist.length = 0 := by
      rw [h2, h3]; rfl
    refine ⟨playSong s 0, ?_, playSong_currentIndex s 0 (le_refl _) (by omega)⟩
    unfold handleSongEnd
    rw [if_neg (by simp [hr]), next_sequential s rs (by omega) hs, hidx]

theorem handleSongEnd_repeat_or_next_witness :
    (∃ t, handleSongEnd (stateAt [songA, songB, songC] 2 true true) [randZero]
        = some (t, [randZero]) ∧
      t.currentIndex = 2 ∧
      t.currentPlaylist = [songA, songB, songC] ∧
      t.recentlyPlayed = [] ∧
      t.audio.currentTime = 0 ∧ t.audio.playCalls = 0 + 1) ∧
    (∃ t, handleSongEnd (stateAt [songA, songB, songC] 2 false false) [randZero]
        = some (t, [randZero]) ∧ t.currentIndex = 0) :=
  ⟨(handleSongEnd_repeat_or_next (stateAt [songA, songB, songC] 2 true true)
      [randZero]).1 rfl,
   (handleSongEnd_repeat_or_next (stateAt [songA, songB, songC] 2 false false)
      [randZero]).2.2 rfl rfl rfl rfl⟩

/-- C7 (the code at the failing input). In the idle state over an empty playlist
(`currentIndex = -1`, `isPlaying = false`) `togglePlay()` keeps
`currentIndex = -1` but takes the resume branch: it sends one `play()` request
to the audio element and sets `isPlaying` to `true`. -/
theorem togglePlay_empty_idle :
    (startState [] [] []).currentIndex = -1 ∧
    (startState [] [] []).isPlaying = false ∧
    (togglePlay (startState [] [] [])).currentIndex = -1 ∧
    (togglePlay (startState [] [] [])).isPlaying = true ∧
    (togglePlay (startState [] [] [])).audio.playCalls
      = (startState [] [] []).audio.playCalls + 1 ∧
    togglePlay (startState [] [] []) ≠ startState [] [] [] := by
  decide

/-! ## Recently-played log -/

theorem addToRecentlyPlayed_eq_cons (track : Song) (log : List Song) :
    addToRecentlyPlayed track log
      = track :: (log.filter (fun s => s.id != track.id)).take 9 := rfl

theorem id_ne_of_mem_kept (track x : Song) (log : List Song)
    (hx : x ∈ (log.filter (fun s => s.id != track.id)).take 9) : x.id ≠ track.id := by
  have hf := List.mem_of_mem_take hx
  rw [List.mem_filter] at hf
  simpa using hf.2

theorem addToRecentlyPlayed_of_new (track : Song) (log : List Song)
    (hnew : ∀ x ∈ log, x.id ≠ track.id) :
    addToRecentlyPlayed track log = track :: log.take 9 := by
  rw [addToRecentlyPlayed_eq_cons]
  have hf : log.filter (fun s => s.id != track.id) = log := by
    rw [List.filter_eq_self]
    intro a ha
    simpa using hnew a ha
  rw [hf]

theorem recordAll_append (log tracks : List Song) (t : Song) :
    recordAll log (tracks ++ [t]) = addToRecentlyPlayed t (recordAll log tracks) := by
  simp [recordAll, List.foldl_append]

/-- Recording tracks with pairwise distinct ids into the empty log leaves the
ten most recent ones, most recent first. -/
theorem recordAll_distinct (tracks : List Song) (hnd : (tracks.map Song.id).Nodup) :
    recordAll [] tracks = tracks.reverse.take 10 := by
  induction tracks using List.reverseRecOn with
  | nil => rfl
  | append_singleton ts t ih =>
    rw [List.map_append, List.nodup_append] at hnd
    obtain ⟨hts, -, hdisj⟩ := hnd
    rw [recordAll_append, ih hts, addToRecentlyPlayed_of_new, List.take_take,
      List.reverse_append]
    · rfl
    · intro x hx hid
      have hxts : x ∈ ts := List.mem_reverse.mp (List.mem_of_mem_take hx)
      exact hdisj (List.mem_map_of_mem Song.id hxts) (by simp [hid])

/-- C8. Recording 11 tracks with pairwise distinct ids, one after another,
into the empty log leaves exactly 10 entries: the last 10 tracks recorded, most
recent first. The first track recorded is not in the log, nor is any entry
with its id. -/
theorem recordAll_eleven (tracks : List Song) (hlen : tracks.length = 11)
    (hnd : (tracks.map Song.id).Nodup) :
    (recordAll [] tracks).length = 10 ∧
    recordAll [] tracks = (tracks.drop 1).reverse ∧
    (∀ t, tracks.head? = some t →
      t ∉ recordAll [] tracks ∧ ∀ x ∈ recordAll [] tracks, x.id ≠ t.id) := by
  have hlog : recordAll [] tracks = (tracks.drop 1).reverse := by
    rw [recordAll_distinct tracks hnd, List.take_reverse, hlen]
  refine ⟨by rw [hlog]; simp [hlen], hlog, ?_⟩
  intro t ht
  have hne : ∀ x ∈ recordAll [] tracks, x.id ≠ t.id := by
    intro x hx hid
    rw [hlog, List.mem_reverse] at hx
    cases tracks with
    | nil => cases ht
    | cons a rest =>
      simp only [List.head?_cons, Option.some.injEq] at ht
      subst ht
      simp only [List.drop_succ_cons, List.drop_zero] at hx
      rw [List.map_cons, List.nodup_cons] at hnd
      exact hnd.1 (hid ▸ List.mem_map_of_mem Song.id hx)
  exact ⟨fun hmem => hne t hmem rfl, hne⟩

theorem recordAll_eleven_witness :
    (recordAll [] elevenTracks).length = 10 ∧
    recordAll [] elevenTracks
      = [track "11", track "10", track "9", track "8", track "7", track "6",
         track "5", track "4", track "3", track "2"] ∧
    (∀ t, elevenTracks.head? = some t →
      t ∉ recordAll [] elevenTracks ∧ ∀ x ∈ recordAll [] elevenTracks, x.id ≠ t.id) :=
  recordAll_eleven elevenTracks rfl (by decide)

/-- C9. When the id of `track` already occurs in the stored log,
`addToRecentlyPlayed(track)` yields a log whose first entry is `track`, that is
no longer than the stored one, in which the id of `track` occurs exactly once,
and whose other entries are entries of the stored log with a different id, in
the order they had there (all of them when the stored log had at most 10
entries). -/
theorem addToRecentlyPlayed_existing (log : List Song) (track : Song)
    (hex : ∃ x ∈ log, x.id = track.id) :
    (addToRecentlyPlayed track log).head? = some track ∧
    (addToRecentlyPlayed track log).length ≤ log.length ∧
    ((addToRecentlyPlayed track log).map Song.id).count track.id = 1 ∧
    List.Sublist (addToRecentlyPlayed track log).tail log ∧
    (∀ x ∈ (addToRecentlyPlayed track log).tail, x.id ≠ track.id) ∧
    (log.length ≤ 10 →
      (addToRecentlyPlayed track log).tail = log.filter (fun s => s.id != track.id)) := by
  have hlt : (log.filter (fun s => s.id != track.id)).length < log.length := by
    rw [List.length_filter_lt_length_iff_exists]
    obtain ⟨x, hx, hid⟩ := hex
    exact ⟨x, hx, by simp [hid]⟩
  rw [addToRecentlyPlayed_eq_cons]
  refine ⟨rfl, ?_, ?_, ?_, ?_, ?_⟩
  · have := List.length_take_le' 9 (log.filter (fun s => s.id != track.id))
    simp only [List.length_cons]
    omega
  · rw [List.map_cons, List.count_cons_self, List.count_eq_zero_of_not_mem]
    intro hmem
    obtain ⟨x, hx, hid⟩ := List.mem_map.mp hmem
    exact id_ne_of_mem_kept track x log hx hid
  · exact (List.take_sublist _ _).trans (List.filter_sublist _)
  · intro x hx
    exact id_ne_of_mem_kept track x log hx
  · intro h10
    exact List.take_of_length_le (by omega)

theorem addToRecentlyPlayed_existing_witness :
    (addToRecentlyPlayed songB [songA, songB, songC]).head? = some songB ∧
    (addToRecentlyPlayed songB [songA, songB, songC]).length ≤ 3 ∧
    ((addToRecentlyPlayed songB [songA, songB, songC]).map Song.id).count songB.id = 1 ∧
    List.Sublist (addToRecentlyPlayed songB [songA, songB, songC]).tail
      [songA, songB, songC] ∧
    (∀ x ∈ (addToRecentlyPlayed songB [songA, songB, songC]).tail, x.id ≠ songB.id) ∧
    ((3 : Nat) ≤ 10 →
      (addToRecentlyPlayed songB [songA, songB, songC]).tail
        = [songA, songB, songC].filter (fun s => s.id != songB.id)) :=
  addToRecentlyPlayed_existing [songA, songB, songC] songB ⟨songB, by decide, rfl⟩

theorem addToRecentlyPlayed_length_le (track : Song) (log : List Song) :
    (addToRecentlyPlayed track log).length ≤ 10 :=
  List.length_take_le 10 _

theorem addToRecentlyPlayed_nodup (track : Song) (log : List Song)
    (hnd : (log.map Song.id).Nodup) :
    ((addToRecentlyPlayed track log).map Song.id).Nodup := by
  rw [addToRecentlyPlayed_eq_cons, List.map_cons, List.nodup_cons]
  constructor
  · intro hmem
    obtain ⟨x, hx, hid⟩ := List.mem_map.mp hmem
    exact id_ne_of_mem_kept track x log hx hid
  · exact hnd.sublist (((List.take_sublist _ _).trans (List.filter_sublist _)).map Song.id)

/-- C10. For every stored log and every track the log after
`addToRecentlyPlayed(track)` has at most 10 entries, and its ids are pairwise
distinct whenever those of the stored log were; hence every log obtained from
the empty log by recording tracks has at most 10 entries and no repeated id. -/
theorem recentlyPlayed_bounded_dedup :
    (∀ (log : List Song) (track : Song),
      (addToRecentlyPlayed track log).length ≤ 10 ∧
      ((log.map Song.id).Nodup → ((addToRecentlyPlayed track log).map Song.id).Nodup)) ∧
    (∀ tracks : List Song,
      (recordAll [] tracks).length ≤ 10 ∧ ((recordAll [] tracks).map Song.id).Nodup) := by
  refine ⟨fun log track =>
    ⟨addToRecentlyPlayed_length_le track log, addToRecentlyPlayed_nodup track log⟩, ?_⟩
  intro tracks
  induction tracks using List.reverseRecOn with
  | nil => exact ⟨by decide, List.nodup_nil⟩
  | append_singleton ts t ih =>
    rw [recordAll_append]
    exact ⟨addToRecentlyPlayed_length_le t _, addToRecentlyPlayed_nodup t _ ih.2⟩

theorem recentlyPlayed_bounded_dedup_witness :
    (addToRecentlyPlayed songB [songA, songB, songC]).length ≤ 10 ∧
    ((addToRecentlyPlayed songB [songA, songB, songC]).map Song.id).Nodup :=
  ⟨(recentlyPlayed_bounded_dedup.1 [songA, songB, songC] songB).1,
   (recentlyPlayed_bounded_dedup.1 [songA, songB, songC] songB).2 (by decide)⟩

/-! ## Favorites -/

theorem indexOf_eq_neg_one_iff (favorites : List String) (songId : String) :
    indexOf favorites songId = -1 ↔ songId ∉ favorites := by
  unfold indexOf
  by_cases h : songId ∈ favorites
  · simp only [h, if_true, not_true_eq_false, iff_false]
    omega
  · simp [h]

theorem toggleFavorite_of_not_mem (s : State) (songId : String)
    (h : songId ∉ s.favorites) :
    (toggleFavorite s songId).favorites = s.favorites ++ [songId] := by
  unfold toggleFavorite
  rw [if_pos ((indexOf_eq_neg_one_iff _ _).mpr h)]

theorem toggleFavorite_of_mem (s : State) (songId : String)
    (h : songId ∈ s.favorites) :
    (toggleFavorite s songId).favorites = s.favorites.erase songId := by
  unfold toggleFavorite
  rw [if_neg (fun hneg => (indexOf_eq_neg_one_iff _ _).mp hneg h)]
  simp only [indexOf, h, if_true, Int.toNat_ofNat]
  exact List.eraseIdx_indexOf_eq_erase songId s.favorites

theorem isFavorite_eq_true_iff (s : State) (songId : String) :
    isFavorite s songId = true ↔ songId ∈ s.favorites := by
  simp [isFavorite]

/-- When the id occurs at most once, a toggle flips its membership. -/
theorem toggleFavorite_mem_iff (s : State) (songId : String)
    (hc : s.favorites.count songId ≤ 1) :
    songId ∈ (toggleFavorite s songId).favorites ↔ songId ∉ s.favorites := by
  by_cases h : songId ∈ s.favorites
  · rw [toggleFavorite_of_mem s songId h]
    have hz : (s.favorites.erase songId).count songId = 0 := by
      rw [List.count_erase_self]; omega
    simp only [h, not_true_eq_false, iff_false]
    exact List.count_eq_zero.mp hz
  · rw [toggleFavorite_of_not_mem s songId h]
    simp [h]

/-- A toggle keeps the id at most once in the list. -/
theorem toggleFavorite_count_le (s : State) (songId : String)
    (hc : s.favorites.count songId ≤ 1) :
    (toggleFavorite s songId).favorites.count songId ≤ 1 := by
  by_cases h : songId ∈ s.favorites
  · rw [toggleFavorite_of_mem s songId h, List.count_erase_self]; omega
  · rw [toggleFavorite_of_not_mem s songId h, List.count_append,
      List.count_eq_zero.mpr h]
    simp

/-- A toggle keeps a duplicate-free list duplicate-free, so every list built
from the empty one by `toggleFavorite` holds each id at most once. -/
theorem toggleFavorite_nodup (s : State) (songId : String)
    (hnd : s.favorites.Nodup) : (toggleFavorite s songId).favorites.Nodup := by
  by_cases h : songId ∈ s.favorites
  · rw [toggleFavorite_of_mem s songId h]
    exact hnd.erase songId
  · rw [toggleFavorite_of_not_mem s songId h]
    exact List.Nodup.append hnd (List.nodup_singleton songId)
      (by intro a ha hb; rw [List.mem_singleton] at hb; exact h (hb ▸ ha))

/-- C11 (as stated, at a stored list holding the id twice). `toggleFavorite`
removes only the first occurrence: after the first call the id is still a
favorite, and after the second call it is not, although it was at the start. -/
theorem toggleFavorite_twice_stored :
    isFavorite twiceFavorite "a" = true ∧
    ¬ (isFavorite (toggleFavorite twiceFavorite "a") "a" = !isFavorite twiceFavorite "a") ∧
    ¬ (isFavorite (toggleFavorite (toggleFavorite twiceFavorite "a") "a") "a"
        = isFavorite twiceFavorite "a") := by
  decide

/-- C11 (amended). For every favorites list in which the id occurs at most once:
after one `toggleFavorite(id)` the membership of the id is the negation of the
original membership, and after a second call it is the original membership. -/
theorem toggleFavorite_involutive (s : State) (songId : String)
    (hc : s.favorites.count songId ≤ 1) :
    isFavorite (toggleFavorite s songId) songId = !isFavorite s songId ∧
    isFavorite (toggleFavorite (toggleFavorite s songId) songId) songId
      = isFavorite s songId := by
  have h1 := toggleFavorite_mem_iff s songId hc
  have h2 := toggleFavorite_mem_iff (toggleFavorite s songId) songId
    (toggleFavorite_count_le s songId hc)
  constructor
  · rw [Bool.eq_iff_iff]
    simp only [isFavorite_eq_true_iff, Bool.not_eq_true', ← Bool.not_eq_true, h1]
  · rw [Bool.eq_iff_iff]
    simp only [isFavorite_eq_true_iff, h2, h1, not_not]

theorem toggleFavorite_involutive_witness :
    (isFavorite (toggleFavorite (startState [songA] ["b", "a"] []) "a") "a"
        = !isFavorite (startState [songA] ["b", "a"] []) "a") ∧
    (isFavorite
        (toggleFavorite (toggleFavorite (startState [songA] ["b", "a"] []) "a") "a") "a"
      = isFavorite (startState [songA] ["b", "a"] []) "a") :=
  toggleFavorite_involutive (startState [songA] ["b", "a"] []) "a" (by decide)

/-! ## Seeking -/

theorem seek_of_percent (R : Rounding) (s : State) (event : ClickEvent) (percent d : ℚ)
    (hp : seekPercent R event = some percent) :
    seek R s event (some d)
      = some { s with audio := s.audio.seekTo d (R.fl (percent * d)) } := by
  unfold seek
  rw [hp]

theorem seek_unknown_duration (R : Rounding) (s : State) (event : ClickEvent) :
    seek R s event none = none := by
  unfold seek
  cases seekPercent R event <;> rfl

/-- The position after a seek lies within the media. -/
theorem seekTo_range (a : Audio) (d value : ℚ) (hd : 0 ≤ d) :
    0 ≤ (a.seekTo d value).currentTime ∧ (a.seekTo d value).currentTime ≤ d :=
  ⟨le_max_left _ _, max_le hd (min_le_right _ _)⟩

/-- The position reached from the computed product is the one reached from the
fraction moved into `[0, 1]` first. -/
theorem seekTo_eq_clamped (R : Rounding) (a : Audio) (percent d : ℚ)
    (hd : 0 ≤ d) (hfl : R.fl d = d) :
    (a.seekTo d (R.fl (percent * d))).currentTime = R.fl (max 0 (min percent 1) * d) := by
  show max 0 (min (R.fl (percent * d)) d) = R.fl (max 0 (min percent 1) * d)
  rcases lt_or_le percent 0 with hneg | hnn
  · have h1 : R.fl (percent * d) ≤ 0 :=
      R.zero ▸ R.mono _ _ (mul_nonpos_of_nonpos_of_nonneg hneg.le hd)
    rw [max_eq_left ((min_le_left _ _).trans h1),
      max_eq_left ((min_le_left _ _).trans hneg.le), zero_mul, R.zero]
  · rcases le_or_lt percent 1 with hle | hgt
    · have h0 : 0 ≤ R.fl (percent * d) := R.zero ▸ R.mono _ _ (mul_nonneg hnn hd)
      have h1 : R.fl (percent * d) ≤ d := by
        have h := R.mono (percent * d) d (mul_le_of_le_one_left hd hle)
        rwa [hfl] at h
      rw [min_eq_left h1, max_eq_right h0, min_eq_left hle, max_eq_right hnn]
    · have h1 : d ≤ R.fl (percent * d) := by
        have h := R.mono d (percent * d) (le_mul_of_one_le_left hd hgt.le)
        rwa [hfl] at h
      rw [min_eq_right h1, max_eq_right hd, min_eq_right hgt.le,
        max_eq_right zero_le_one, one_mul, hfl]

/-- C12. For every click, `seek` ends with the playback position that the
fraction `percent`, moved into `[0, 1]`, gives when multiplied by the duration:
the position lies between `0` and the duration, it is `0` for a fraction below
`0` and the duration for a fraction above `1`. The fraction exists whenever the
bar has a width, and when the duration is unknown `seek` assigns nothing and
leaves the state as it was. The duration is a double and not negative. -/
theorem seek_clamped (R : Rounding) (s : State) (event : ClickEvent) :
    (∀ d percent : ℚ, 0 ≤ d → R.fl d = d → seekPercent R event = some percent →
      ∃ t, seek R s event (some d) = some t ∧
        t.audio.currentTime = R.fl (max 0 (min percent 1) * d) ∧
        0 ≤ t.audio.currentTime ∧ t.audio.currentTime ≤ d ∧
        (percent < 0 → t.audio.currentTime = 0) ∧
        (1 < percent → t.audio.currentTime = d)) ∧
    (event.width ≠ 0 → ∃ percent, seekPercent R event = some percent) ∧
    (∀ (d : ℚ) (t : State), 0 ≤ d → seek R s event (some d) = some t →
      0 ≤ t.audio.currentTime ∧ t.audio.currentTime ≤ d) ∧
    (seek R s event none = none ∧ afterSeek R s event none = s) := by
  refine ⟨?_, ?_, ?_, seek_unknown_duration R s event, ?_⟩
  · intro d percent hd hfl hp
    have hpos := seekTo_eq_clamped R s.audio percent d hd hfl
    refine ⟨_, seek_of_percent R s event percent d hp, hpos,
      (seekTo_range s.audio d _ hd).1, (seekTo_range s.audio d _ hd).2, ?_, ?_⟩
    · intro hneg
      show (s.audio.seekTo d (R.fl (percent * d))).currentTime = 0
      rw [hpos, max_eq_left ((min_le_left _ _).trans hneg.le), zero_mul, R.zero]
    · intro hgt
      show (s.audio.seekTo d (R.fl (percent * d))).currentTime = d
      rw [hpos, min_eq_right hgt.le, max_eq_right zero_le_one, one_mul, hfl]
  · intro hw
    exact ⟨_, by rw [seekPercent, if_neg hw]⟩
  · intro d t hd ht
    cases hp : seekPercent R event with
    | none => simp [seek, hp] at ht
    | some percent =>
      rw [seek_of_percent R s event percent d hp, Option.some.injEq] at ht
      rw [← ht]
      exact seekTo_range s.audio d _ hd
  · unfold afterSeek
    rw [seek_unknown_duration]
    rfl

theorem seek_clamped_witness :
    (∃ t, seek Rounding.exact (startState [songA] [] []) clickBefore (some 100) = some t ∧
      t.audio.currentTime = 0) ∧
    (∃ t, seek Rounding.exact (startState [songA] [] []) clickBeyond (some 100) = some t ∧
      t.audio.currentTime = 100) ∧
    (∃ t, seek Rounding.exact (startState [songA] [] []) clickQuarter (some 100) = some t ∧
      t.audio.currentTime = 25) ∧
    (∃ percent, seekPercent Rounding.exact clickQuarter = some percent) ∧
    ((0 : ℚ) ≤ (Audio.seekTo Audio.fresh 100 (-50)).currentTime ∧
      (Audio.seekTo Audio.fresh 100 (-50)).currentTime ≤ 100) ∧
    afterSeek Rounding.exact (startState [songA] [] []) clickBefore none
      = startState [songA] [] [] := by
  have hb : seekPercent Rounding.exact clickBefore = some (-1 / 2) := by
    norm_num [seekPercent, clickBefore, Rounding.exact]
  have hy : seekPercent Rounding.exact clickBeyond = some (3 / 2) := by
    norm_num [seekPercent, clickBeyond, Rounding.exact]
  have hq : seekPercent Rounding.exact clickQuarter = some (1 / 4) := by
    norm_num [seekPercent, clickQuarter, Rounding.exact]
  refine ⟨?_, ?_, ?_, ?_, ?_, ?_⟩
  · obtain ⟨t, ht, -, -, -, hneg, -⟩ :=
      (seek_clamped Rounding.exact (startState [songA] [] []) clickBefore).1
        100 (-1 / 2) (by norm_num) rfl hb
    exact ⟨t, ht, hneg (by norm_num)⟩
  · obtain ⟨t, ht, -, -, -, -, hgt⟩ :=
      (seek_clamped Rounding.exact (startState [songA] [] []) clickBeyond).1
        100 (3 / 2) (by norm_num) rfl hy
    exact ⟨t, ht, hgt (by norm_num)⟩
  · obtain ⟨t, ht, hpos, -⟩ :=
      (seek_clamped Rounding.exact (startState [songA] [] []) clickQuarter).1
        100 (1 / 4) (by norm_num) rfl hq
    refine ⟨t, ht, ?_⟩
    rw [hpos]
    norm_num [Rounding.exact]
  · exact (seek_clamped Rounding.exact (startState [songA] [] []) clickQuarter).2.1
      (by norm_num [clickQuarter])
  · exact (seek_clamped Rounding.exact (startState [songA] [] []) clickBefore).2.2.1 100
      { startState [songA] [] [] with audio := Audio.seekTo Audio.fresh 100 (-50) }
      (by norm_num)
      (by rw [seek_of_percent _ _ _ _ _ hb]; norm_num [Rounding.exact, startState])
  · exact (seek_clamped Rounding.exact (startState [songA] [] []) clickBefore).2.2.2.2

/-! ## Validity of `currentIndex` -/

theorem IndexOk_startState (playlist : List Song) (favorites : List String)
    (recentlyPlayed : List Song) : IndexOk (startState playlist favorites recentlyPlayed) :=
  Or.inl rfl

theorem IndexOk_playSong (s : State) (index : Int) (h : IndexOk s) :
    IndexOk (playSong s index) := by
  by_cases hv : index < 0 ∨ index ≥ (s.currentPlaylist.length : Int)
  · rw [playSong_of_invalid s index hv]; exact h
  · have h0 : 0 ≤ index := by omega
    have hlt : index < (s.currentPlaylist.length : Int) := by omega
    right
    rw [playSong_currentIndex s index h0 hlt, playSong_currentPlaylist]
    exact ⟨h0, hlt⟩

theorem IndexOk_togglePlay (s : State) (h : IndexOk s) : IndexOk (togglePlay s) := by
  unfold togglePlay
  split
  · exact IndexOk_playSong s 0 h
  · split <;> exact h

theorem IndexOk_next (s t : State) (rs rest : List Rand) (h : IndexOk s)
    (hn : next s rs = some (t, rest)) : IndexOk t := by
  unfold next at hn
  split at hn
  · simp only [Option.some.injEq, Prod.mk.injEq] at hn
    rw [← hn.1]; exact h
  · split at hn
    · split at hn
      · cases hn
      · simp only [Option.some.injEq, Prod.mk.injEq] at hn
        rw [← hn.1]; exact IndexOk_playSong s _ h
    · simp only [Option.some.injEq, Prod.mk.injEq] at hn
      rw [← hn.1]; exact IndexOk_playSong s _ h

theorem IndexOk_previous (s t : State) (rs rest : List Rand) (h : IndexOk s)
    (hp : previous s rs = some (t, rest)) : IndexOk t := by
  unfold previous at hp
  split at hp
  · simp only [Option.some.injEq, Prod.mk.injEq] at hp
    rw [← hp.1]; exact h
  · split at hp
    · split at hp
      · cases hp
      · simp only [Option.some.injEq, Prod.mk.injEq] at hp
        rw [← hp.1]; exact IndexOk_playSong s _ h
    · simp only [Option.some.injEq, Prod.mk.injEq] at hp
      rw [← hp.1]; exact IndexOk_playSong s _ h

theorem IndexOk_handleSongEnd (s t : State) (rs rest : List Rand) (h : IndexOk s)
    (he : handleSongEnd s rs = some (t, rest)) : IndexOk t := by
  unfold handleSongEnd at he
  split at he
  · simp only [Option.some.injEq, Prod.mk.injEq] at he
    rw [← he.1]; exact h
  · exact IndexOk_next s t rs rest h he

/-- Appending a song keeps a valid index valid. -/
theorem IndexOk_push (s : State) (newSong : Song) (h : IndexOk s) :
    s.currentIndex = -1 ∨
      (0 ≤ s.currentIndex ∧
        s.currentIndex < ((s.currentPlaylist ++ [newSong]).length : Int)) := by
  rcases h with h | ⟨h0, hlt⟩
  · exact Or.inl h
  · right
    rw [List.length_append, List.length_singleton]
    push_cast
    omega

theorem IndexOk_step (s t : State) (rs rest : List Rand) (a : Action) (h : IndexOk s)
    (hs : step s rs a = some (t, rest)) : IndexOk t := by
  cases a with
  | playSong index =>
    simp only [step, Option.some.injEq, Prod.mk.injEq] at hs
    rw [← hs.1]; exact IndexOk_playSong s index h
  | togglePlay =>
    simp only [step, Option.some.injEq, Prod.mk.injEq] at hs
    rw [← hs.1]; exact IndexOk_togglePlay s h
  | next => exact IndexOk_next s t rs rest h hs
  | previous => exact IndexOk_previous s t rs rest h hs
  | handleSongEnd => exact IndexOk_handleSongEnd s t rs rest h hs
  | shuffle =>
    simp only [step, Option.some.injEq, Prod.mk.injEq] at hs
    rw [← hs.1]; exact h
  | «repeat» =>
    simp only [step, Option.some.injEq, Prod.mk.injEq] at hs
    rw [← hs.1]; exact h
  | processUrl newSong =>
    simp only [step, Option.some.injEq, Prod.mk.injEq] at hs
    rw [← hs.1]; exact IndexOk_push s newSong h
  | addLocalFile newSong =>
    simp only [step, Option.some.injEq, Prod.mk.injEq] at hs
    rw [← hs.1]; exact IndexOk_push s newSong h
  | dropFile newSong =>
    simp only [step, Option.some.injEq, Prod.mk.injEq] at hs
    rw [← hs.1]; exact IndexOk_push s newSong h

theorem IndexOk_run (actions : List Action) :
    ∀ (s t : State) (rs rest : List Rand), IndexOk s →
      run s rs actions = some (t, rest) → IndexOk t := by
  induction actions with
  | nil =>
    intro s t rs rest h hr
    simp only [run, Option.some.injEq, Prod.mk.injEq] at hr
    rw [← hr.1]; exact h
  | cons a actions ih =>
    intro s t rs rest h hr
    unfold run at hr
    cases hs : step s rs a with
    | none => rw [hs] at hr; cases hr
    | some p =>
      obtain ⟨u, left⟩ := p
      rw [hs] at hr
      exact ih u t left rest (IndexOk_step s u rs left a h hs) hr

/-- C13. In every state reached from the start state (`currentIndex = -1`, the
playlist as loaded) by any sequence of `playSong`, `togglePlay`, `next`,
`previous`, `handleSongEnd`, `shuffle`, `repeat` and song additions (which
append to the playlist), with any random source, `currentIndex` is `-1` or
satisfies `0 <= currentIndex < currentPlaylist.length`. -/
theorem currentIndex_valid (playlist : List Song) (favorites : List String)
    (recentlyPlayed : List Song) (rs rest : List Rand) (actions : List Action) (t : State)
    (h : run (startState playlist favorites recentlyPlayed) rs actions = some (t, rest)) :
    t.currentIndex = -1 ∨
      (0 ≤ t.currentIndex ∧ t.currentIndex < (t.currentPlaylist.length : Int)) :=
  IndexOk_run actions _ t rs rest (IndexOk_startState playlist favorites recentlyPlayed) h

theorem currentIndex_valid_witness :
    run (startState [songA, songB] [] []) [randHalf]
        [Action.togglePlay, Action.next, Action.addLocalFile songC, Action.next,
         Action.shuffle, Action.previous, Action.playSong 7]
      = some (playSong (shuffle (playSong (addLocalFile
          (playSong (togglePlay (startState [songA, songB] [] [])) 1) songC) 2)) 1, []) ∧
    ((playSong (shuffle (playSong (addLocalFile
          (playSong (togglePlay (startState [songA, songB] [] [])) 1) songC) 2)) 1).currentIndex
        = -1 ∨
      (0 ≤ (playSong (shuffle (playSong (addLocalFile
          (playSong (togglePlay (startState [songA, songB] [] [])) 1) songC) 2)) 1).currentIndex ∧
       (playSong (shuffle (playSong (addLocalFile
          (playSong (togglePlay (startState [songA, songB] [] [])) 1) songC) 2)) 1).currentIndex
        < ((playSong (shuffle (playSong (addLocalFile
          (playSong (togglePlay (startState [songA, songB] [] [])) 1) songC) 2)) 1).currentPlaylist.length
            : Int))) :=
  ⟨by decide,
   currentIndex_valid [songA, songB] [] [] [randHalf] []
     [Action.togglePlay, Action.next, Action.addLocalFile songC, Action.next,
      Action.shuffle, Action.previous, Action.playSong 7] _ (by decide)⟩

end MusicPlayer
